import Mathlib

/-!
Shallow embedding of the two core pipelines of the US Trade Navigator
repository:

* the submission pipeline (`processTradeData`, `getHSCodeDescription`,
  `makeRequest` with its bounded-retry protocol and error classification),
  translated from the webhook module;
* the aggregation pipeline (`validData` sanitization inside
  `fetchTradeStats`, and the `chartData` monthly aggregation), translated
  from `TradeAnalysisChart.tsx`.

JavaScript numbers are modelled as exact rationals extended with the IEEE
special values NaN, +Infinity and -Infinity (`JSNum`); rounding and
overflow of double arithmetic are not modelled, so properties that depend
on the non-associativity of rounded addition are outside this embedding
(see the doc comment on `jadd`).  Year and month fields are specialised
to natural numbers (calendar data coming from integer database columns).
-/

namespace Trade

/-- Model of a JavaScript number: an exact rational, or one of the special
IEEE values NaN, +Infinity, -Infinity. -/
inductive JSNum where
  | finite (q : ℚ)
  | nan
  | posInf
  | negInf
deriving DecidableEq

/-- JavaScript addition `+` on numbers, with the finite part idealized as
exact rational addition.  The program's IEEE-754 double addition rounds to
53 bits and is therefore non-associative; this model is exact, hence
associative and commutative.  The exactness is immaterial to conclusions
about values that doubles represent exactly or to the structural shape of
the aggregation, but order-independence of summation holds only in this
idealization, not in the program. -/
def jadd : JSNum → JSNum → JSNum
  | .nan, _ => .nan
  | _, .nan => .nan
  | .posInf, .negInf => .nan
  | .negInf, .posInf => .nan
  | .posInf, _ => .posInf
  | _, .posInf => .posInf
  | .negInf, _ => .negInf
  | _, .negInf => .negInf
  | .finite a, .finite b => .finite (a + b)

/-- JavaScript division `/` on numbers: division by zero produces
±Infinity for a nonzero dividend and NaN for `0 / 0` (the sign of
JavaScript's negative zero is not modelled). -/
def jdiv : JSNum → JSNum → JSNum
  | .nan, _ => .nan
  | _, .nan => .nan
  | .posInf, .posInf => .nan
  | .posInf, .negInf => .nan
  | .negInf, .posInf => .nan
  | .negInf, .negInf => .nan
  | .posInf, .finite b => if b < 0 then .negInf else .posInf
  | .negInf, .finite b => if b < 0 then .posInf else .negInf
  | .finite _, .posInf => .finite 0
  | .finite _, .negInf => .finite 0
  | .finite a, .finite b =>
      if b = 0 then (if a = 0 then .nan else if 0 < a then .posInf else .negInf)
      else .finite (a / b)

/-- An untyped JavaScript value, as far as the filters of the source need
to distinguish shapes (`typeof x === 'number'`, `isNaN`). -/
inductive JSVal where
  | num (n : JSNum)
  | str (s : String)
  | nullV
  | undef
  | boolV (b : Bool)
deriving DecidableEq

/-- `typeof v === 'number'`. -/
def JSVal.isNumber : JSVal → Bool
  | .num _ => true
  | _ => false

/-- `isNaN(v)` for a value already known to be a number (in the source it
is only reached behind a `typeof v === 'number'` guard). -/
def JSVal.isNaNNum : JSVal → Bool
  | .num .nan => true
  | _ => false

/-! ## Record Validator / Sanitizer (`fetchTradeStats` filter) -/

/-- An element of the raw row array returned by the observations query:
either a nullish entry or a row whose four numeric columns are arbitrary
JavaScript values. -/
inductive RawElem where
  | nullish
  | record (year_val month_val value volume : JSVal)
deriving DecidableEq

/-- The predicate of the `filter` inside `fetchTradeStats`:
`stat && typeof stat.year_val === 'number' && typeof stat.month_val === 'number'
&& typeof stat.value === 'number' && typeof stat.volume === 'number'
&& !isNaN(stat.value) && !isNaN(stat.volume)`. -/
def validStatCheck : RawElem → Bool
  | .nullish => false
  | .record y m v u =>
      y.isNumber && m.isNumber && v.isNumber && u.isNumber &&
        !v.isNaNNum && !u.isNaNNum

/-- `validData` from `fetchTradeStats`: the raw rows filtered by
`validStatCheck`. -/
def validData (l : List RawElem) : List RawElem :=
  l.filter validStatCheck

/-! ## Aggregator (`chartData` memo in `TradeAnalysisChart.tsx`) -/

/-- A sanitized trade observation as consumed by the aggregator.  Year and
month are specialised to naturals (integer calendar columns); value and
volume stay general JavaScript numbers (the sanitizer only excludes NaN). -/
structure TradeStat where
  year_val : ℕ
  month_val : ℕ
  value : JSNum
  volume : JSNum
deriving DecidableEq

/-- One monthly aggregate produced by `chartData`. -/
structure ChartData where
  month : String
  total_value : JSNum
  volume : JSNum
  value_per_volume : JSNum
  isLatest : Bool
deriving DecidableEq

/-- JavaScript `String.prototype.padStart(2, '0')`. -/
def padStart2 (s : String) : String :=
  if s.length ≥ 2 then s
  else String.mk (List.replicate (2 - s.length) '0') ++ s

/-- The grouping key `` `${stat.year_val}-${String(stat.month_val).padStart(2, '0')}` ``. -/
def monthKey (s : TradeStat) : String :=
  toString s.year_val ++ "-" ++ padStart2 (toString s.month_val)

/-- `monthlyData.get(k)` on the insertion-ordered map, modelled as an
association list. -/
def mapGet (m : List (String × ChartData)) (k : String) : Option ChartData :=
  match m with
  | [] => none
  | (k', v') :: rest => if k' = k then some v' else mapGet rest k

/-- `monthlyData.set(k, v)`: replace in place when the key is present,
append otherwise (JavaScript `Map` keeps insertion order). -/
def mapSet (m : List (String × ChartData)) (k : String) (v : ChartData) :
    List (String × ChartData) :=
  match m with
  | [] => [(k, v)]
  | (k', v') :: rest =>
      if k' = k then (k, v) :: rest else (k', v') :: mapSet rest k v

/-- The fresh entry `{month: monthKey, total_value: 0, volume: 0,
value_per_volume: 0}` created when a key is first seen. -/
def emptyEntry (k : String) : ChartData :=
  { month := k, total_value := .finite 0, volume := .finite 0,
    value_per_volume := .finite 0, isLatest := false }

/-- The mutation applied to a group entry for one observation:
`total_value += value; volume += volume;
value_per_volume = total_value / volume`. -/
def updateEntry (c : ChartData) (s : TradeStat) : ChartData :=
  let tv := jadd c.total_value s.value
  let vol := jadd c.volume s.volume
  { c with total_value := tv, volume := vol, value_per_volume := jdiv tv vol }

/-- One iteration of the `tradeStats.forEach` grouping loop. -/
def groupStep (m : List (String × ChartData)) (s : TradeStat) :
    List (String × ChartData) :=
  let k := monthKey s
  mapSet m k (updateEntry ((mapGet m k).getD (emptyEntry k)) s)

/-- The fully built `monthlyData` map. -/
def buildMonthly (stats : List TradeStat) : List (String × ChartData) :=
  stats.foldl groupStep []

/-- `sortedData[sortedData.length - 1].isLatest = true` on a list. -/
def setLastLatest : List ChartData → List ChartData
  | [] => []
  | [c] => [{ c with isLatest := true }]
  | c :: rest => c :: setLastLatest rest

/-- The ascending order used by
`.sort((a, b) => a.month.localeCompare(b.month))`, with `localeCompare`
modelled as code-point string comparison. -/
def chartOrder (a b : ChartData) : Prop := a.month ≤ b.month

instance : DecidableRel chartOrder :=
  fun a b => decidable_of_iff (a.month.toList ≤ b.month.toList)
    String.le_iff_toList_le.symm

instance : IsTotal ChartData chartOrder :=
  ⟨fun a b => le_total a.month b.month⟩

instance : IsTrans ChartData chartOrder :=
  ⟨fun _ _ _ h₁ h₂ => le_trans h₁ h₂⟩

/-- The `chartData` computation: early return on empty input, group by
month key, spread each entry with `isLatest: false`, sort ascending by the
month key (JavaScript `Array.prototype.sort` is implementation-defined, so
any correct comparison sort is a faithful model; the keys being pairwise
distinct, they all agree), then mark the last element as latest. -/
def chartData (stats : List TradeStat) : List ChartData :=
  if stats.isEmpty then []
  else
    let monthly := buildMonthly stats
    let sorted :=
      ((monthly.map Prod.snd).map (fun d => { d with isLatest := false })).insertionSort
        chartOrder
    setLastLatest sorted

/-! ## Submission pipeline (webhook module) -/

def DEV_MODE : Bool := false

def MAX_RETRIES : ℕ := 3

def RETRY_DELAY : ℕ := 1000

def REQUEST_TIMEOUT : ℕ := 15000

structure TradeWebhookPayload where
  hsCode : String
  hsCodeDescription : String
  tradeType : String
  timestamp : String
  requestId : String
deriving DecidableEq

/-- The observable shape of the error caught by `makeRequest`:
whether `axios.isAxiosError(error)` holds, the transport error code, the
HTTP response status (when a response exists), and `error.message`
(the empty string standing for a falsy message). -/
structure AxiosLikeError where
  isAxiosError : Bool
  code : Option String
  status : Option ℕ
  message : String
deriving DecidableEq

/-- The final `throw new Error('Failed to process trade data: ' + (error.message || 'Unknown error'))`. -/
def errorFallbackMessage (e : AxiosLikeError) : String :=
  "Failed to process trade data: " ++
    (if e.message = "" then "Unknown error" else e.message)

/-- The error classification performed by `makeRequest` once the retry
budget is exhausted, following the guards of the source in order. -/
def classifyError (e : AxiosLikeError) : String :=
  if e.isAxiosError then
    if e.code = some "ECONNABORTED" then "Request timed out. Please try again."
    else if e.code = some "ERR_NETWORK" then
      "Network error. Please check your internet connection."
    else if e.status = some 400 then
      "Invalid request: Please check HTS code format and trade type"
    else if e.status = some 401 then "Unauthorized: Authentication failed"
    else if e.status = some 500 then "Server error: Failed to process trade data"
    else errorFallbackMessage e
  else errorFallbackMessage e

/-- Result of `makeRequest`: the development-mode bypass object, the
response data of a successful post, or a thrown error message. -/
inductive MRResult (ρ : Type) where
  | bypassed (p : TradeWebhookPayload)
  | ok (r : ρ)
  | thrown (msg : String)
deriving DecidableEq

/-- Execution trace of `makeRequest`: every post performed (payload sent
and attempt number), every backoff delay awaited (in ms, in order), and
the final outcome. -/
structure MRTrace (ρ : Type) where
  posts : List (TradeWebhookPayload × ℕ)
  delays : List ℕ
  result : MRResult ρ
deriving DecidableEq

/-- `makeRequest(payload, attempt)`.  The network is modelled by `env`,
giving for each attempt number either the response data or the caught
error.  On failure with `attempt < MAX_RETRIES` the function awaits
`RETRY_DELAY * attempt` ms and retries with the same payload; otherwise it
classifies the caught error and throws. -/
def makeRequest (ρ : Type) (env : ℕ → Except AxiosLikeError ρ)
    (payload : TradeWebhookPayload) (attempt : ℕ) : MRTrace ρ :=
  if DEV_MODE then { posts := [], delays := [], result := .bypassed payload }
  else
    match env attempt with
    | .ok r => { posts := [(payload, attempt)], delays := [], result := .ok r }
    | .error e =>
      if h : attempt < MAX_RETRIES then
        let rest := makeRequest ρ env payload (attempt + 1)
        { posts := (payload, attempt) :: rest.posts,
          delays := RETRY_DELAY * attempt :: rest.delays,
          result := rest.result }
      else
        { posts := [(payload, attempt)], delays := [],
          result := .thrown (classifyError e) }
termination_by MAX_RETRIES - attempt
decreasing_by omega

/-- Outcome of the description query `supabase.from('hs_codes')...single()`
as observed by `getHSCodeDescription`: a returned row whose description
field is `some s` (or `none` for a null/absent field or null data), a
non-null `error`, or a thrown exception. -/
inductive DescQueryResult where
  | found (descr : Option String)
  | queryError (e : String)
  | exception (e : String)
deriving DecidableEq

/-- `getHSCodeDescription`: returns the description field when present and
truthy, and the fixed placeholder on an empty field, missing row, query
error, or exception. -/
def getHSCodeDescription (q : DescQueryResult) : String :=
  match q with
  | .queryError _ => "Description not available"
  | .exception _ => "Description not available"
  | .found d =>
      match d with
      | some s => if s = "" then "Description not available" else s
      | none => "Description not available"

/-- JavaScript `String.prototype.trim`: strip leading and trailing
whitespace, modelled at the character-list level (the whitespace set is
approximated by `Char.isWhitespace`). -/
def jsTrim (s : String) : String :=
  String.mk (((s.data.dropWhile Char.isWhitespace).reverse.dropWhile
    Char.isWhitespace).reverse)

/-- The regular expression test `/^\d{10}$/.test(s)`. -/
def tenDigitCode (s : String) : Bool :=
  s.length == 10 && s.toList.all Char.isDigit

/-- `processTradeData(hsCode, tradeType)`: strict code validation, trade
type validation, description lookup, payload construction and dispatch.
The generated request id `rid`, the ISO timestamp `ts`, the description
query outcome `q` and the network `env` are supplied as parameters. -/
def processTradeData (ρ : Type) (q : DescQueryResult) (rid ts : String)
    (env : ℕ → Except AxiosLikeError ρ) (hsCode : JSVal) (tradeType : String) :
    Except String (MRTrace ρ) :=
  match hsCode with
  | .str s =>
      if tenDigitCode (jsTrim s) then
        if tradeType == "Import" || tradeType == "Export" then
          Except.ok (makeRequest ρ env
            { hsCode := jsTrim s, hsCodeDescription := getHSCodeDescription q,
              tradeType := tradeType, timestamp := ts, requestId := rid } 1)
        else Except.error "Invalid trade type. Must be \"Import\" or \"Export\"."
      else Except.error "Invalid HTS code format. Must be exactly 10 digits."
  | _ => Except.error "Invalid HTS code format. Must be exactly 10 digits."

/-! ## Algebra of the JavaScript number model -/

theorem jadd_comm (a b : JSNum) : jadd a b = jadd b a := by
  cases a <;> cases b <;> simp [jadd, add_comm]

theorem jadd_assoc (a b c : JSNum) : jadd (jadd a b) c = jadd a (jadd b c) := by
  cases a <;> cases b <;> cases c <;> simp [jadd, add_assoc]

theorem jadd_right_comm (x a b : JSNum) :
    jadd (jadd x a) b = jadd (jadd x b) a := by
  rw [jadd_assoc, jadd_assoc, jadd_comm a b]

/-! ## Lemmas about the group entries -/

theorem updateEntry_month (c : ChartData) (s : TradeStat) :
    (updateEntry c s).month = c.month := rfl

theorem updateEntry_isLatest (c : ChartData) (s : TradeStat) :
    (updateEntry c s).isLatest = c.isLatest := rfl

theorem updateEntry_comm (c : ChartData) (s₁ s₂ : TradeStat) :
    updateEntry (updateEntry c s₁) s₂ = updateEntry (updateEntry c s₂) s₁ := by
  simp only [updateEntry]
  rw [jadd_right_comm c.total_value s₁.value s₂.value,
    jadd_right_comm c.volume s₁.volume s₂.volume]

theorem foldl_updateEntry_month (l : List TradeStat) (c : ChartData) :
    (l.foldl updateEntry c).month = c.month := by
  induction l generalizing c with
  | nil => rfl
  | cons s t ih => rw [List.foldl_cons, ih, updateEntry_month]

theorem foldl_updateEntry_isLatest (l : List TradeStat) (c : ChartData) :
    (l.foldl updateEntry c).isLatest = c.isLatest := by
  induction l generalizing c with
  | nil => rfl
  | cons s t ih => rw [List.foldl_cons, ih, updateEntry_isLatest]

theorem foldl_updateEntry_vpv (l : List TradeStat) (c : ChartData) (h : l ≠ []) :
    (l.foldl updateEntry c).value_per_volume =
      jdiv (l.foldl updateEntry c).total_value (l.foldl updateEntry c).volume := by
  induction l generalizing c with
  | nil => exact absurd rfl h
  | cons s t ih =>
    cases t with
    | nil => simp [updateEntry]
    | cons s' t' => rw [List.foldl_cons]; exact ih _ (by simp)

/-! ## Lemmas about the insertion-ordered map -/

theorem mapGet_mapSet_self (m : List (String × ChartData)) (k : String)
    (v : ChartData) : mapGet (mapSet m k v) k = some v := by
  induction m with
  | nil => simp [mapSet, mapGet]
  | cons p t ih =>
    obtain ⟨k', v'⟩ := p
    by_cases h : k' = k
    · simp [mapSet, mapGet, h]
    · simp [mapSet, mapGet, h, ih]

theorem mapGet_mapSet_ne (m : List (String × ChartData)) {k k' : String}
    (v : ChartData) (h : k' ≠ k) : mapGet (mapSet m k v) k' = mapGet m k' := by
  have hkk : ¬(k = k') := fun hh => h hh.symm
  induction m with
  | nil => simp [mapSet, mapGet, hkk]
  | cons p t ih =>
    obtain ⟨k₀, v₀⟩ := p
    by_cases h0 : k₀ = k
    · subst h0
      simp [mapSet, mapGet, hkk]
    · simp [mapSet, mapGet, h0, ih]

theorem mem_mapSet {m : List (String × ChartData)} {k : String} {v : ChartData}
    {p : String × ChartData} (h : p ∈ mapSet m k v) : p = (k, v) ∨ p ∈ m := by
  induction m with
  | nil => simpa [mapSet] using h
  | cons q t ih =>
    obtain ⟨k₀, v₀⟩ := q
    by_cases h0 : k₀ = k
    · rw [show mapSet ((k₀, v₀) :: t) k v = (k, v) :: t from by
        simp [mapSet, h0]] at h
      rcases List.mem_cons.mp h with h1 | h1
      · exact Or.inl h1
      · exact Or.inr (List.mem_cons_of_mem _ h1)
    · rw [show mapSet ((k₀, v₀) :: t) k v = (k₀, v₀) :: mapSet t k v from by
        simp [mapSet, h0]] at h
      rcases List.mem_cons.mp h with h1 | h1
      · exact Or.inr (h1 ▸ List.mem_cons_self _ _)
      · rcases ih h1 with h2 | h2
        · exact Or.inl h2
        · exact Or.inr (List.mem_cons_of_mem _ h2)

theorem mapGet_mem {m : List (String × ChartData)} {k : String} {v : ChartData}
    (h : mapGet m k = some v) : (k, v) ∈ m := by
  induction m with
  | nil => simp [mapGet] at h
  | cons p t ih =>
    obtain ⟨k₀, v₀⟩ := p
    by_cases h0 : k₀ = k
    · subst h0
      have hv : some v₀ = some v := by simpa [mapGet] using h
      cases Option.some.inj hv
      exact List.mem_cons_self _ _
    · have ht : mapGet t k = some v := by simpa [mapGet, h0] using h
      exact List.mem_cons_of_mem _ (ih ht)

theorem mapGet_eq_none_iff {m : List (String × ChartData)} {k : String} :
    mapGet m k = none ↔ k ∉ m.map Prod.fst := by
  induction m with
  | nil => simp [mapGet]
  | cons p t ih =>
    obtain ⟨k₀, v₀⟩ := p
    by_cases h0 : k₀ = k
    · subst h0; simp [mapGet]
    · simp [mapGet, h0, ih, Ne.symm h0]

theorem mapSet_keys_of_mem {m : List (String × ChartData)} {k : String}
    (v : ChartData) (h : k ∈ m.map Prod.fst) :
    (mapSet m k v).map Prod.fst = m.map Prod.fst := by
  induction m with
  | nil => simp at h
  | cons p t ih =>
    obtain ⟨k₀, v₀⟩ := p
    by_cases h0 : k₀ = k
    · subst h0; simp [mapSet]
    · simp only [List.map_cons, List.mem_cons] at h
      rcases h with h | h
      · exact absurd h.symm h0
      · simp [mapSet, h0, ih h]

theorem mapSet_keys_of_not_mem {m : List (String × ChartData)} {k : String}
    (v : ChartData) (h : k ∉ m.map Prod.fst) :
    (mapSet m k v).map Prod.fst = m.map Prod.fst ++ [k] := by
  induction m with
  | nil => simp [mapSet]
  | cons p t ih =>
    obtain ⟨k₀, v₀⟩ := p
    simp only [List.map_cons, List.mem_cons] at h
    push_neg at h
    simp [mapSet, Ne.symm h.1, ih h.2]

theorem mapSet_keys_nodup {m : List (String × ChartData)} {k : String}
    (v : ChartData) (h : (m.map Prod.fst).Nodup) :
    ((mapSet m k v).map Prod.fst).Nodup := by
  by_cases hm : k ∈ m.map Prod.fst
  · rw [mapSet_keys_of_mem v hm]; exact h
  · rw [mapSet_keys_of_not_mem v hm]
    refine List.Nodup.append h (List.nodup_singleton k) ?_
    intro a ha hb
    rw [List.mem_singleton] at hb
    subst hb
    exact hm ha

theorem mapGet_eq_some_of_mem_nodup {m : List (String × ChartData)}
    {k : String} {v : ChartData} (hn : (m.map Prod.fst).Nodup)
    (h : (k, v) ∈ m) : mapGet m k = some v := by
  induction m with
  | nil => simp at h
  | cons p t ih =>
    obtain ⟨k₀, v₀⟩ := p
    simp only [List.map_cons, List.nodup_cons] at hn
    rcases List.mem_cons.mp h with h | h
    · have hk : k = k₀ := congrArg Prod.fst h
      have hv : v = v₀ := congrArg Prod.snd h
      subst hk
      subst hv
      simp [mapGet]
    · have hk : k₀ ≠ k := by
        rintro rfl
        exact hn.1 (List.mem_map.mpr ⟨_, h, rfl⟩)
      simp [mapGet, hk, ih hn.2 h]

/-! ## Characterization of the grouping fold -/

theorem foldl_groupStep_get (stats : List TradeStat)
    (m : List (String × ChartData)) (k : String) :
    mapGet (stats.foldl groupStep m) k =
      if (stats.filter (fun s => monthKey s == k)).isEmpty then mapGet m k
      else some ((stats.filter (fun s => monthKey s == k)).foldl updateEntry
        ((mapGet m k).getD (emptyEntry k))) := by
  induction stats generalizing m with
  | nil => simp
  | cons s t ih =>
    rw [List.foldl_cons, ih]
    by_cases h : monthKey s = k
    · subst h
      rw [List.filter_cons_of_pos (by simp)]
      have hget : mapGet (groupStep m s) (monthKey s) =
          some (updateEntry ((mapGet m (monthKey s)).getD (emptyEntry (monthKey s))) s) := by
        simp only [groupStep]
        exact mapGet_mapSet_self ..
      by_cases ht : (t.filter (fun s' => monthKey s' == monthKey s)).isEmpty
      · rw [List.isEmpty_iff] at ht
        simp [ht, hget]
      · simp [ht, hget]
    · rw [List.filter_cons_of_neg (by simp [h])]
      have hget : mapGet (groupStep m s) k = mapGet m k := by
        simp only [groupStep]
        exact mapGet_mapSet_ne _ _ (fun hh => h hh.symm)
      rw [hget]

theorem foldl_groupStep_keys_nodup (stats : List TradeStat)
    (m : List (String × ChartData)) (h : (m.map Prod.fst).Nodup) :
    ((stats.foldl groupStep m).map Prod.fst).Nodup := by
  induction stats generalizing m with
  | nil => exact h
  | cons s t ih =>
    rw [List.foldl_cons]
    exact ih _ (mapSet_keys_nodup _ h)

theorem buildMonthly_get (stats : List TradeStat) (k : String) :
    mapGet (buildMonthly stats) k =
      if (stats.filter (fun s => monthKey s == k)).isEmpty then none
      else some ((stats.filter (fun s => monthKey s == k)).foldl updateEntry
        (emptyEntry k)) := by
  have := foldl_groupStep_get stats [] k
  simpa [buildMonthly, mapGet] using this

theorem buildMonthly_keys_nodup (stats : List TradeStat) :
    ((buildMonthly stats).map Prod.fst).Nodup :=
  foldl_groupStep_keys_nodup stats [] (by simp)

/-- Every entry stored in the built map: its `month` field is its key, its
`value_per_volume` is the JavaScript quotient of its totals, its `isLatest`
is still false, and it arises as the fold of the observations of its key. -/
theorem buildMonthly_entry {stats : List TradeStat} {k : String} {v : ChartData}
    (h : (k, v) ∈ buildMonthly stats) :
    v = (stats.filter (fun s => monthKey s == k)).foldl updateEntry (emptyEntry k) ∧
      (stats.filter (fun s => monthKey s == k)) ≠ [] ∧
      v.month = k ∧ v.isLatest = false ∧
      v.value_per_volume = jdiv v.total_value v.volume := by
  have hget := mapGet_eq_some_of_mem_nodup (buildMonthly_keys_nodup stats) h
  rw [buildMonthly_get] at hget
  by_cases he : (stats.filter (fun s => monthKey s == k)).isEmpty
  · simp [he] at hget
  · rw [if_neg he, Option.some.injEq] at hget
    have hne : (stats.filter (fun s => monthKey s == k)) ≠ [] := by
      simpa [List.isEmpty_iff] using he
    subst hget
    refine ⟨rfl, hne, ?_, ?_, foldl_updateEntry_vpv _ _ hne⟩
    · rw [foldl_updateEntry_month]; rfl
    · rw [foldl_updateEntry_isLatest]; rfl

/-! ## Structure of the aggregator output -/

theorem chartData_eq (stats : List TradeStat) (h : stats ≠ []) :
    chartData stats =
      setLastLatest ((((buildMonthly stats).map Prod.snd).map
        (fun d => { d with isLatest := false })).insertionSort chartOrder) := by
  rw [chartData, if_neg (by simpa [List.isEmpty_iff] using h)]

theorem setLastLatest_decomp : ∀ (l : List ChartData), l ≠ [] →
    ∃ t c, l = t ++ [c] ∧ setLastLatest l = t ++ [{ c with isLatest := true }]
  | [], h => absurd rfl h
  | [c], _ => ⟨[], c, rfl, rfl⟩
  | c :: c' :: t, _ => by
    obtain ⟨t', d, h1, h2⟩ := setLastLatest_decomp (c' :: t) (by simp)
    refine ⟨c :: t', d, ?_, ?_⟩
    · rw [List.cons_append, ← h1]
    · rw [show setLastLatest (c :: c' :: t) = c :: setLastLatest (c' :: t) from rfl,
        h2, List.cons_append]

theorem exists_source_of_filter_ne {stats : List TradeStat} {k : String}
    (h : stats.filter (fun s => monthKey s == k) ≠ []) :
    ∃ s ∈ stats, monthKey s = k := by
  obtain ⟨s, hs⟩ := List.exists_mem_of_ne_nil _ h
  have hm := List.mem_filter.mp hs
  exact ⟨s, hm.1, by simpa using hm.2⟩

/-- Every element of the aggregator output carries (up to the `isLatest`
flag) the fields of an entry of the built monthly map. -/
theorem mem_chartData_source {stats : List TradeStat} {c : ChartData}
    (h : c ∈ chartData stats) :
    ∃ k v, (k, v) ∈ buildMonthly stats ∧ c.month = v.month ∧
      c.total_value = v.total_value ∧ c.volume = v.volume ∧
      c.value_per_volume = v.value_per_volume := by
  by_cases hs : stats = []
  · subst hs; simp [chartData] at h
  · rw [chartData_eq stats hs] at h
    generalize hsl : (((buildMonthly stats).map Prod.snd).map
      (fun d => { d with isLatest := false })).insertionSort chartOrder = sl at h
    by_cases hnil : sl = []
    · rw [hnil] at h; simp [setLastLatest] at h
    · obtain ⟨t, d, hdec, hset⟩ := setLastLatest_decomp sl hnil
      rw [hset] at h
      have hd : ∃ e ∈ sl, c.month = e.month ∧ c.total_value = e.total_value ∧
          c.volume = e.volume ∧ c.value_per_volume = e.value_per_volume := by
        rcases List.mem_append.mp h with h1 | h1
        · exact ⟨c, by rw [hdec]; exact List.mem_append_left _ h1,
            rfl, rfl, rfl, rfl⟩
        · rw [List.mem_singleton] at h1
          subst h1
          exact ⟨d, by rw [hdec]; exact List.mem_append_right _ (by simp),
            rfl, rfl, rfl, rfl⟩
      obtain ⟨e, he, hf1, hf2, hf3, hf4⟩ := hd
      rw [← hsl, List.mem_insertionSort] at he
      obtain ⟨v, hv, rfl⟩ := List.mem_map.mp he
      obtain ⟨p, hp, rfl⟩ := List.mem_map.mp hv
      exact ⟨p.1, p.2, by simpa using hp, hf1, hf2, hf3, hf4⟩

/-! ## Claim C1 -/

/-- Claim C1 is FALSE on the code: for the single observation
(year 2024, month 1, value 100, volume 0), the emitted aggregate carries
`value_per_volume = Infinity` (and `NaN` when the value is 0 as well) -
the unit price is computed by JavaScript division, never omitted. -/
theorem C1_counterexample :
    chartData [⟨2024, 1, .finite 100, .finite 0⟩] =
        [⟨"2024-01", .finite 100, .finite 0, .posInf, true⟩] ∧
      chartData [⟨2024, 1, .finite 0, .finite 0⟩] =
        [⟨"2024-01", .finite 0, .finite 0, .nan, true⟩] := by
  constructor
  · simp +decide only [chartData, buildMonthly, groupStep, mapGet, mapSet,
      updateEntry, emptyEntry, setLastLatest, jadd, jdiv, List.foldl,
      List.isEmpty, List.map, Option.getD,
      (by decide : monthKey ⟨2024, 1, JSNum.finite 100, JSNum.finite 0⟩ = "2024-01")]
    norm_num
  · simp +decide only [chartData, buildMonthly, groupStep, mapGet, mapSet,
      updateEntry, emptyEntry, setLastLatest, jadd, jdiv, List.foldl,
      List.isEmpty, List.map, Option.getD,
      (by decide : monthKey ⟨2024, 1, JSNum.finite 0, JSNum.finite 0⟩ = "2024-01")]
    norm_num

/-- Claim C1 (amended): every group produced by the Aggregator has
`value_per_volume` equal to the JavaScript quotient
`totalValue / totalVolume` - on `totalVolume = 0` this is `NaN` for
`totalValue = 0` and `±Infinity` otherwise (never omitted), and on a
finite nonzero `totalVolume` it is the exact quotient. -/
theorem C1_amended {stats : List TradeStat} {c : ChartData}
    (h : c ∈ chartData stats) :
    c.value_per_volume = jdiv c.total_value c.volume ∧
      (∀ q : ℚ, c.total_value = .finite q → c.volume = .finite 0 →
        c.value_per_volume =
          (if q = 0 then JSNum.nan else if 0 < q then JSNum.posInf else JSNum.negInf)) ∧
      (∀ q r : ℚ, c.total_value = .finite q → c.volume = .finite r → r ≠ 0 →
        c.value_per_volume = .finite (q / r)) := by
  obtain ⟨k, v, hmem, hm, htv, hvol, hvpv⟩ := mem_chartData_source h
  obtain ⟨_, _, _, _, hjd⟩ := buildMonthly_entry hmem
  have hc : c.value_per_volume = jdiv c.total_value c.volume := by
    rw [hvpv, htv, hvol, hjd]
  refine ⟨hc, ?_, ?_⟩
  · intro q h1 h2
    rw [hc, h1, h2]
    simp [jdiv]
  · intro q r h1 h2 h3
    rw [hc, h1, h2]
    simp [jdiv, h3]

/-- Witness: the volume-zero aggregate of `C1_counterexample` satisfies the
amended unit-price law. -/
theorem C1_witness :
    (⟨"2024-01", .finite 100, .finite 0, .posInf, true⟩ : ChartData).value_per_volume =
      jdiv (⟨"2024-01", .finite 100, .finite 0, .posInf, true⟩ : ChartData).total_value
        (⟨"2024-01", .finite 100, .finite 0, .posInf, true⟩ : ChartData).volume :=
  (@C1_amended [⟨2024, 1, .finite 100, .finite 0⟩]
    ⟨"2024-01", .finite 100, .finite 0, .posInf, true⟩ (by
      have h : chartData [⟨2024, 1, .finite 100, .finite 0⟩] =
          [⟨"2024-01", .finite 100, .finite 0, .posInf, true⟩] := by
        simp +decide only [chartData, buildMonthly, groupStep, mapGet, mapSet,
          updateEntry, emptyEntry, setLastLatest, jadd, jdiv, List.foldl,
          List.isEmpty, List.map, Option.getD,
          (by decide : monthKey ⟨2024, 1, JSNum.finite 100, JSNum.finite 0⟩ = "2024-01")]
        norm_num
      rw [h]
      exact List.mem_singleton_self _)).1

/-! ## Claim C2 -/

/-- Claim C2 is FALSE on the code: the sanitizer keeps a record with a
negative value and a record with an infinite value - it checks only
`typeof === 'number'` and `!isNaN`, not finiteness or non-negativity. -/
theorem C2_counterexample :
    validData [RawElem.record (.num (.finite 2024)) (.num (.finite 1))
        (.num (.finite (-5))) (.num (.finite 1))] =
      [RawElem.record (.num (.finite 2024)) (.num (.finite 1))
        (.num (.finite (-5))) (.num (.finite 1))] ∧
    validData [RawElem.record (.num (.finite 2024)) (.num (.finite 1))
        (.num .posInf) (.num (.finite 1))] =
      [RawElem.record (.num (.finite 2024)) (.num (.finite 1))
        (.num .posInf) (.num (.finite 1))] := by
  constructor <;> decide

/-- Claim C2 (amended): the sanitizer retains exactly the structurally
present records whose `year_val`, `month_val`, `value`, `volume` are all
numbers with `value` and `volume` not NaN (negative or infinite values are
NOT excluded); retained records are a sublist of the input - original
relative order, unmodified elements. -/
theorem C2_amended (l : List RawElem) :
    List.Sublist (validData l) l ∧
      (∀ e ∈ validData l, ∃ y m v u, e = RawElem.record y m v u ∧
        y.isNumber = true ∧ m.isNumber = true ∧ v.isNumber = true ∧
        u.isNumber = true ∧ v.isNaNNum = false ∧ u.isNaNNum = false) ∧
      (∀ e ∈ l, validStatCheck e = true → e ∈ validData l) := by
  refine ⟨List.filter_sublist l, ?_, ?_⟩
  · intro e he
    have hm := List.mem_filter.mp he
    cases e with
    | nullish => simp [validStatCheck] at hm
    | record y m v u =>
      have hck := hm.2
      simp only [validStatCheck, Bool.and_eq_true, Bool.not_eq_true'] at hck
      exact ⟨y, m, v, u, rfl, hck.1.1.1.1.1, hck.1.1.1.1.2, hck.1.1.1.2,
        hck.1.1.2, hck.1.2, hck.2⟩
  · intro e he hck
    exact List.mem_filter.mpr ⟨he, hck⟩

/-- Witness: on a mixed list the sanitizer yields a sublist, and a
well-formed record is retained. -/
theorem C2_witness :
    List.Sublist (validData [RawElem.nullish,
        RawElem.record (.num (.finite 2024)) (.num (.finite 1))
          (.num (.finite 3)) (.num (.finite 4))])
      [RawElem.nullish,
        RawElem.record (.num (.finite 2024)) (.num (.finite 1))
          (.num (.finite 3)) (.num (.finite 4))] ∧
    RawElem.record (.num (.finite 2024)) (.num (.finite 1))
        (.num (.finite 3)) (.num (.finite 4)) ∈
      validData [RawElem.nullish,
        RawElem.record (.num (.finite 2024)) (.num (.finite 1))
          (.num (.finite 3)) (.num (.finite 4))] :=
  ⟨(C2_amended _).1, (C2_amended _).2.2 _ (by decide) (by decide)⟩

/-! ## Claim C5 -/

/-- Claim C5: on the three observations of the spec the aggregator emits
exactly the two stated monthly aggregates, with unit prices 10 and the
latest marker on 2024-02 only. -/
theorem C5_aggregator_example :
    chartData [⟨2024, 1, .finite 100, .finite 10⟩, ⟨2024, 1, .finite 50, .finite 5⟩,
        ⟨2024, 2, .finite 200, .finite 20⟩] =
      [⟨"2024-01", .finite 150, .finite 15, .finite 10, false⟩,
       ⟨"2024-02", .finite 200, .finite 20, .finite 10, true⟩] := by
  simp +decide only [chartData, buildMonthly, groupStep, mapGet, mapSet,
    updateEntry, emptyEntry, setLastLatest, jadd, jdiv, List.foldl,
    List.isEmpty, List.map, Option.getD,
    (by decide : monthKey ⟨2024, 1, JSNum.finite 100, JSNum.finite 10⟩ = "2024-01"),
    (by decide : monthKey ⟨2024, 1, JSNum.finite 50, JSNum.finite 5⟩ = "2024-01"),
    (by decide : monthKey ⟨2024, 2, JSNum.finite 200, JSNum.finite 20⟩ = "2024-02")]
  norm_num

/-! ## Claim C9 -/

/-- Claim C9: the description lookup never propagates a failure - on a
query error, an exception, a missing row, or an empty description field it
returns the fixed placeholder, and on a found non-empty description it
returns that description; in every case the result is either the found
description or the placeholder. -/
theorem C9_description_lookup (q : DescQueryResult) :
    (∀ e, q = .queryError e → getHSCodeDescription q = "Description not available") ∧
    (∀ e, q = .exception e → getHSCodeDescription q = "Description not available") ∧
    (q = .found none → getHSCodeDescription q = "Description not available") ∧
    (∀ s, q = .found (some s) → s ≠ "" → getHSCodeDescription q = s) ∧
    (q = .found (some "") → getHSCodeDescription q = "Description not available") ∧
    (getHSCodeDescription q = "Description not available" ∨
      ∃ s, q = .found (some s) ∧ getHSCodeDescription q = s) := by
  cases q with
  | queryError e => simp [getHSCodeDescription]
  | exception e => simp [getHSCodeDescription]
  | found d =>
    cases d with
    | none => simp [getHSCodeDescription]
    | some s =>
      by_cases hs : s = ""
      · subst hs; simp [getHSCodeDescription]
      · simp only [getHSCodeDescription, if_neg hs]
        refine ⟨by simp, by simp, by simp, ?_, ?_, ?_⟩
        · intro s' hs'
          cases hs'
          simp_all
        · intro hs'
          cases hs'
          simp at hs
        · exact Or.inr ⟨s, rfl, rfl⟩

/-- Witness: a found non-empty description is returned as-is. -/
theorem C9_witness :
    getHSCodeDescription (.found (some "Wheat")) = "Wheat" :=
  (C9_description_lookup (.found (some "Wheat"))).2.2.2.1 "Wheat" rfl (by decide)

/-! ## Evaluation lemmas for the dispatcher -/

theorem makeRequest_ok {ρ : Type} (env : ℕ → Except AxiosLikeError ρ)
    (p : TradeWebhookPayload) (attempt : ℕ) (r : ρ) (h : env attempt = .ok r) :
    makeRequest ρ env p attempt =
      { posts := [(p, attempt)], delays := [], result := .ok r } := by
  rw [makeRequest]
  simp [DEV_MODE, h]

theorem makeRequest_retry {ρ : Type} (env : ℕ → Except AxiosLikeError ρ)
    (p : TradeWebhookPayload) (attempt : ℕ) (e : AxiosLikeError)
    (h : env attempt = .error e) (hlt : attempt < MAX_RETRIES) :
    makeRequest ρ env p attempt =
      { posts := (p, attempt) :: (makeRequest ρ env p (attempt + 1)).posts,
        delays := RETRY_DELAY * attempt :: (makeRequest ρ env p (attempt + 1)).delays,
        result := (makeRequest ρ env p (attempt + 1)).result } := by
  rw [makeRequest]
  simp [DEV_MODE, h, hlt]

theorem makeRequest_exhaust {ρ : Type} (env : ℕ → Except AxiosLikeError ρ)
    (p : TradeWebhookPayload) (attempt : ℕ) (e : AxiosLikeError)
    (h : env attempt = .error e) (hge : ¬ attempt < MAX_RETRIES) :
    makeRequest ρ env p attempt =
      { posts := [(p, attempt)], delays := [],
        result := .thrown (classifyError e) } := by
  rw [makeRequest]
  simp [DEV_MODE, h, hge]

/-! ## Claim C3 -/

/-- Claim C3: below the maximum attempt count the dispatcher retries on
EVERY failure (the error `e` is arbitrary - nothing about its class is
inspected before retrying, only the attempt counter), and when all three
attempts fail only the final error is classified and surfaced - the
result depends only on `e₃`, never on the intermediate `e₁`, `e₂`. -/
theorem C3_retry_policy {ρ : Type} (env : ℕ → Except AxiosLikeError ρ)
    (p : TradeWebhookPayload) :
    (∀ k e, k < MAX_RETRIES → env k = .error e →
      (makeRequest ρ env p k).posts = (p, k) :: (makeRequest ρ env p (k + 1)).posts ∧
      (makeRequest ρ env p k).result = (makeRequest ρ env p (k + 1)).result) ∧
    (∀ e₁ e₂ e₃, env 1 = .error e₁ → env 2 = .error e₂ → env 3 = .error e₃ →
      (makeRequest ρ env p 1).result = .thrown (classifyError e₃)) := by
  constructor
  · intro k e hk he
    rw [makeRequest_retry env p k e he hk]
    exact ⟨rfl, rfl⟩
  · intro e₁ e₂ e₃ h1 h2 h3
    rw [makeRequest_retry env p 1 e₁ h1 (by norm_num [MAX_RETRIES]),
      makeRequest_retry env p 2 e₂ h2 (by norm_num [MAX_RETRIES]),
      makeRequest_exhaust env p 3 e₃ h3 (by norm_num [MAX_RETRIES])]

/-- Witness: a 400 failure then a 401 failure are both retried, and the
final 500 failure is the one classified. -/
theorem C3_witness :
    (makeRequest Unit
        (fun k => .error (if k = 1 then ⟨true, none, some 400, "bad"⟩
          else if k = 2 then ⟨true, none, some 401, "auth"⟩
          else ⟨true, none, some 500, "server"⟩))
        ⟨"1234567890", "desc", "Import", "ts", "rid"⟩ 1).result =
      .thrown (classifyError ⟨true, none, some 500, "server"⟩) :=
  (C3_retry_policy
      (fun k => .error (if k = 1 then ⟨true, none, some 400, "bad"⟩
        else if k = 2 then ⟨true, none, some 401, "auth"⟩
        else ⟨true, none, some 500, "server"⟩))
      ⟨"1234567890", "desc", "Import", "ts", "rid"⟩).2
    _ _ _ rfl rfl rfl

/-! ## Claim C4 -/

/-- Claim C4: a dispatch starting at attempt 1 performs n ≤ 3 posts, all
with the same payload (hence the same requestId), at attempt numbers
1, ..., n, and the backoff awaited before attempt k (k = 2, 3) is
`RETRY_DELAY * (k - 1)` ms, i.e. 1000 ms then 2000 ms - linear, not
exponential. -/
theorem C4_attempts_and_backoff {ρ : Type} (env : ℕ → Except AxiosLikeError ρ)
    (p : TradeWebhookPayload) :
    ∃ n, 1 ≤ n ∧ n ≤ MAX_RETRIES ∧
      (makeRequest ρ env p 1).posts = (List.range' 1 n).map (fun k => (p, k)) ∧
      (makeRequest ρ env p 1).delays =
        (List.range' 1 (n - 1)).map (fun k => RETRY_DELAY * k) := by
  cases h1 : env 1 with
  | ok r =>
    refine ⟨1, le_refl 1, by norm_num [MAX_RETRIES], ?_, ?_⟩
    · rw [makeRequest_ok env p 1 r h1]; rfl
    · rw [makeRequest_ok env p 1 r h1]; rfl
  | error e1 =>
    cases h2 : env 2 with
    | ok r =>
      refine ⟨2, by norm_num, by norm_num [MAX_RETRIES], ?_, ?_⟩
      · rw [makeRequest_retry env p 1 e1 h1 (by norm_num [MAX_RETRIES]),
          makeRequest_ok env p 2 r h2]
        rfl
      · rw [makeRequest_retry env p 1 e1 h1 (by norm_num [MAX_RETRIES]),
          makeRequest_ok env p 2 r h2]
        rfl
    | error e2 =>
      cases h3 : env 3 with
      | ok r =>
        refine ⟨3, by norm_num, by norm_num [MAX_RETRIES], ?_, ?_⟩
        · rw [makeRequest_retry env p 1 e1 h1 (by norm_num [MAX_RETRIES]),
            makeRequest_retry env p 2 e2 h2 (by norm_num [MAX_RETRIES]),
            makeRequest_ok env p 3 r h3]
          rfl
        · rw [makeRequest_retry env p 1 e1 h1 (by norm_num [MAX_RETRIES]),
            makeRequest_retry env p 2 e2 h2 (by norm_num [MAX_RETRIES]),
            makeRequest_ok env p 3 r h3]
          rfl
      | error e3 =>
        refine ⟨3, by norm_num, by norm_num [MAX_RETRIES], ?_, ?_⟩
        · rw [makeRequest_retry env p 1 e1 h1 (by norm_num [MAX_RETRIES]),
            makeRequest_retry env p 2 e2 h2 (by norm_num [MAX_RETRIES]),
            makeRequest_exhaust env p 3 e3 h3 (by norm_num [MAX_RETRIES])]
          rfl
        · rw [makeRequest_retry env p 1 e1 h1 (by norm_num [MAX_RETRIES]),
            makeRequest_retry env p 2 e2 h2 (by norm_num [MAX_RETRIES]),
            makeRequest_exhaust env p 3 e3 h3 (by norm_num [MAX_RETRIES])]
          rfl

/-! ## Claim C7 -/

/-- Claim C7: the terminal failure classification - timeout abort to the
timeout message, transport unreachability to the network message, HTTP
400 / 401 / 500 to their messages (the code checks take precedence over
the status checks, mirroring the source order), anything else to the
fallback message carrying the underlying error message; and end-to-end,
three failed attempts ending in an HTTP 500 produce exactly
"Server error: Failed to process trade data". -/
theorem C7_error_taxonomy {ρ : Type} (env : ℕ → Except AxiosLikeError ρ)
    (p : TradeWebhookPayload) (e e₁ e₂ : AxiosLikeError) (m : String)
    (h1 : env 1 = .error e₁) (h2 : env 2 = .error e₂)
    (h3 : env 3 = .error ⟨true, none, some 500, m⟩) :
    (makeRequest ρ env p 1).result =
        .thrown "Server error: Failed to process trade data" ∧
      (e.isAxiosError = true → e.code = some "ECONNABORTED" →
        classifyError e = "Request timed out. Please try again.") ∧
      (e.isAxiosError = true → e.code = some "ERR_NETWORK" →
        classifyError e = "Network error. Please check your internet connection.") ∧
      (e.isAxiosError = true → e.code ≠ some "ECONNABORTED" →
        e.code ≠ some "ERR_NETWORK" → e.status = some 400 →
        classifyError e = "Invalid request: Please check HTS code format and trade type") ∧
      (e.isAxiosError = true → e.code ≠ some "ECONNABORTED" →
        e.code ≠ some "ERR_NETWORK" → e.status = some 401 →
        classifyError e = "Unauthorized: Authentication failed") ∧
      (e.isAxiosError = true → e.code ≠ some "ECONNABORTED" →
        e.code ≠ some "ERR_NETWORK" → e.status = some 500 →
        classifyError e = "Server error: Failed to process trade data") ∧
      (e.isAxiosError = false →
        classifyError e = "Failed to process trade data: " ++
          (if e.message = "" then "Unknown error" else e.message)) ∧
      (e.isAxiosError = true → e.code ≠ some "ECONNABORTED" →
        e.code ≠ some "ERR_NETWORK" → e.status ≠ some 400 →
        e.status ≠ some 401 → e.status ≠ some 500 →
        classifyError e = "Failed to process trade data: " ++
          (if e.message = "" then "Unknown error" else e.message)) := by
  refine ⟨?_, ?_, ?_, ?_, ?_, ?_, ?_, ?_⟩
  · rw [makeRequest_retry env p 1 e₁ h1 (by norm_num [MAX_RETRIES]),
      makeRequest_retry env p 2 e₂ h2 (by norm_num [MAX_RETRIES]),
      makeRequest_exhaust env p 3 _ h3 (by norm_num [MAX_RETRIES])]
    simp [classifyError]
  · intro ha hc; simp [classifyError, ha, hc]
  · intro ha hc; simp [classifyError, ha, hc]
  · intro ha hc1 hc2 hs; simp [classifyError, ha, hc1, hc2, hs]
  · intro ha hc1 hc2 hs; simp [classifyError, ha, hc1, hc2, hs]
  · intro ha hc1 hc2 hs; simp [classifyError, ha, hc1, hc2, hs]
  · intro ha; simp [classifyError, errorFallbackMessage, ha]
  · intro ha hc1 hc2 hs1 hs2 hs3
    simp [classifyError, errorFallbackMessage, ha, hc1, hc2, hs1, hs2, hs3]

/-- Witness: an HTTP 500 on every attempt yields exactly the server-error
message, and a timeout abort is classified with the timeout message. -/
theorem C7_witness :
    (makeRequest Unit (fun _ => .error ⟨true, none, some 500, "boom"⟩)
        ⟨"1234567890", "desc", "Import", "ts", "rid"⟩ 1).result =
        .thrown "Server error: Failed to process trade data" ∧
      classifyError ⟨true, some "ECONNABORTED", none, "t"⟩ =
        "Request timed out. Please try again." := by
  have h := @C7_error_taxonomy Unit
    (fun _ => .error ⟨true, none, some 500, "boom"⟩)
    ⟨"1234567890", "desc", "Import", "ts", "rid"⟩
    ⟨true, some "ECONNABORTED", none, "t"⟩ ⟨true, none, some 500, "boom"⟩
    ⟨true, none, some 500, "boom"⟩ "boom" rfl rfl rfl
  exact ⟨h.1, h.2.1 rfl rfl⟩

/-! ## Claim C8 -/

/-- Claim C8: validation of `processTradeData` - a non-string or a string
that is not exactly 10 decimal digits after trimming fails with the
invalid-format error; with a valid code, a trade type other than the two
literals fails with the trade-type error; only when both checks pass is
the payload built (from the trimmed code, the resolved description, a
fresh request id and timestamp) and dispatched.  `tenDigitCode` is
exactly the "length 10 and all characters decimal digits" test. -/
theorem C8_validator {ρ : Type} (q : DescQueryResult) (rid ts : String)
    (env : ℕ → Except AxiosLikeError ρ) (v : JSVal) (tt : String) :
    ((∀ s, v = .str s → tenDigitCode (jsTrim s) = false) →
      processTradeData ρ q rid ts env v tt =
        .error "Invalid HTS code format. Must be exactly 10 digits.") ∧
    ((∀ s, v ≠ .str s) →
      processTradeData ρ q rid ts env v tt =
        .error "Invalid HTS code format. Must be exactly 10 digits.") ∧
    (∀ s, v = .str s → tenDigitCode (jsTrim s) = true → tt ≠ "Import" →
      tt ≠ "Export" →
      processTradeData ρ q rid ts env v tt =
        .error "Invalid trade type. Must be \"Import\" or \"Export\".") ∧
    (∀ s, v = .str s → tenDigitCode (jsTrim s) = true →
      (tt = "Import" ∨ tt = "Export") →
      processTradeData ρ q rid ts env v tt =
        .ok (makeRequest ρ env
          { hsCode := jsTrim s, hsCodeDescription := getHSCodeDescription q,
            tradeType := tt, timestamp := ts, requestId := rid } 1)) ∧
    (∀ s : String, tenDigitCode s = true ↔
      (s.length = 10 ∧ ∀ c ∈ s.toList, c.isDigit = true)) := by
  refine ⟨?_, ?_, ?_, ?_, ?_⟩
  · intro hf
    cases v with
    | str s => simp [processTradeData, hf s rfl]
    | num n => rfl
    | nullV => rfl
    | undef => rfl
    | boolV b => rfl
  · intro hns
    cases v with
    | str s => exact absurd rfl (hns s)
    | num n => rfl
    | nullV => rfl
    | undef => rfl
    | boolV b => rfl
  · rintro s rfl hten h1 h2
    simp [processTradeData, hten, h1, h2]
  · rintro s rfl hten htt
    rcases htt with h | h <;> subst h <;> simp [processTradeData, hten]
  · intro s
    simp [tenDigitCode, List.all_eq_true]

/-- Witness: the spec's example code passes with direction Import, a
non-digit code fails, and `tenDigitCode` accepts "1234567890". -/
theorem C8_witness :
    processTradeData Unit (.found (some "desc")) "rid" "ts"
        (fun _ => .ok ()) (.str "1234567890") "Import" =
      .ok (makeRequest Unit (fun _ => .ok ())
        { hsCode := "1234567890", hsCodeDescription := "desc",
          tradeType := "Import", timestamp := "ts", requestId := "rid" } 1) ∧
    processTradeData Unit (.found (some "desc")) "rid" "ts"
        (fun _ => .ok ()) (.str "abc") "Import" =
      .error "Invalid HTS code format. Must be exactly 10 digits." := by
  constructor
  · have h := (@C8_validator Unit (.found (some "desc")) "rid" "ts"
      (fun _ => .ok ()) (.str "1234567890") "Import").2.2.2.1 "1234567890" rfl
      (by decide) (Or.inl rfl)
    simpa [getHSCodeDescription] using h
  · exact (@C8_validator Unit (.found (some "desc")) "rid" "ts"
      (fun _ => .ok ()) (.str "abc") "Import").1
      (fun s hs => by cases hs; decide)

/-! ## Decimal representation of naturals

The month key is built with JavaScript number-to-string conversion, i.e.
decimal notation, modelled by `Nat.repr`.  To reason about the ordering of
keys we re-express `Nat.repr` through a structurally recursive digit
function and prove injectivity and order-compatibility on equal-length
representations. -/

/-- Structural recomputation of the decimal digit list of `Nat.repr`. -/
def natDigits (n : ℕ) : List Char :=
  if n < 10 then [Nat.digitChar n]
  else natDigits (n / 10) ++ [Nat.digitChar (n % 10)]
termination_by n
decreasing_by exact Nat.div_lt_self (by omega) (by norm_num)

theorem natDigits_lt10 {n : ℕ} (h : n < 10) :
    natDigits n = [Nat.digitChar n] := by
  rw [natDigits, if_pos h]

theorem natDigits_ge10 {n : ℕ} (h : ¬ n < 10) :
    natDigits n = natDigits (n / 10) ++ [Nat.digitChar (n % 10)] := by
  rw [natDigits, if_neg h]

theorem natDigits_ne_nil (n : ℕ) : natDigits n ≠ [] := by
  by_cases h : n < 10
  · rw [natDigits_lt10 h]; simp
  · rw [natDigits_ge10 h]; simp

theorem natDigits_length_ge10 {n : ℕ} (h : ¬ n < 10) :
    (natDigits n).length = (natDigits (n / 10)).length + 1 := by
  rw [natDigits_ge10 h]; simp

theorem toDigitsCore_eq (fuel : ℕ) : ∀ (n : ℕ) (ds : List Char), n < fuel →
    Nat.toDigitsCore 10 fuel n ds = natDigits n ++ ds := by
  induction fuel with
  | zero => omega
  | succ f ih =>
    intro n ds h
    rw [Nat.toDigitsCore]
    by_cases h10 : n / 10 = 0
    · have hn : n < 10 := by omega
      simp only [h10, if_pos rfl]
      rw [natDigits_lt10 hn, Nat.mod_eq_of_lt hn]
      rfl
    · have hge : ¬ n < 10 := by omega
      simp only [if_neg h10]
      rw [ih (n / 10) _ (by omega), natDigits_ge10 hge, List.append_assoc]
      rfl

theorem repr_eq_natDigits (n : ℕ) : Nat.repr n = (natDigits n).asString := by
  rw [Nat.repr, Nat.toDigits, toDigitsCore_eq (n + 1) n [] (by omega),
    List.append_nil]

theorem toString_nat_data (n : ℕ) : (toString n : String).data = natDigits n := by
  show (Nat.repr n).data = natDigits n
  rw [repr_eq_natDigits]
  rfl

theorem digitChar_inj {a b : ℕ} (ha : a < 10) (hb : b < 10)
    (h : Nat.digitChar a = Nat.digitChar b) : a = b := by
  interval_cases a <;> interval_cases b <;> revert h <;> decide

theorem digitChar_lt_iff {a b : ℕ} (ha : a < 10) (hb : b < 10) :
    Nat.digitChar a < Nat.digitChar b ↔ a < b := by
  interval_cases a <;> interval_cases b <;> decide

theorem natDigits_inj : ∀ {a b : ℕ}, natDigits a = natDigits b → a = b := by
  intro a
  induction a using Nat.strong_induction_on with
  | _ a ih =>
    intro b h
    by_cases ha : a < 10 <;> by_cases hb : b < 10
    · exact digitChar_inj ha hb
        (by simpa [natDigits_lt10 ha, natDigits_lt10 hb] using h)
    · rw [natDigits_lt10 ha, natDigits_ge10 hb] at h
      have hlen := congrArg List.length h
      simp only [List.length_singleton, List.length_append] at hlen
      have := natDigits_ne_nil (b / 10)
      cases hnd : natDigits (b / 10) with
      | nil => exact absurd hnd this
      | cons c t => rw [hnd] at hlen; simp at hlen
    · rw [natDigits_ge10 ha, natDigits_lt10 hb] at h
      have hlen := congrArg List.length h
      simp only [List.length_singleton, List.length_append] at hlen
      have := natDigits_ne_nil (a / 10)
      cases hnd : natDigits (a / 10) with
      | nil => exact absurd hnd this
      | cons c t => rw [hnd] at hlen; simp at hlen
    · rw [natDigits_ge10 ha, natDigits_ge10 hb] at h
      have hrev := congrArg List.reverse h
      simp only [List.reverse_append, List.reverse_cons, List.reverse_nil,
        List.nil_append, List.singleton_append, List.cons.injEq] at hrev
      obtain ⟨hd, ht⟩ := hrev
      have hmod : a % 10 = b % 10 :=
        digitChar_inj (Nat.mod_lt _ (by norm_num)) (Nat.mod_lt _ (by norm_num)) hd
      have hdiv : a / 10 = b / 10 :=
        ih (a / 10) (Nat.div_lt_self (by omega) (by norm_num))
          (List.reverse_injective ht)
      omega

theorem lex_cons_iff {a b : Char} {l₁ l₂ : List Char} :
    List.Lex (· < ·) (a :: l₁) (b :: l₂) ↔
      a < b ∨ (a = b ∧ List.Lex (· < ·) l₁ l₂) := by
  constructor
  · intro h
    cases h with
    | cons h => exact Or.inr ⟨rfl, h⟩
    | rel h => exact Or.inl h
  · rintro (h | ⟨rfl, h⟩)
    · exact List.Lex.rel h
    · exact List.Lex.cons h

theorem lex_append_iff {xs ys zs ws : List Char} (h : xs.length = ys.length) :
    List.Lex (· < ·) (xs ++ zs) (ys ++ ws) ↔
      List.Lex (· < ·) xs ys ∨ (xs = ys ∧ List.Lex (· < ·) zs ws) := by
  induction xs generalizing ys with
  | nil =>
    cases ys with
    | nil => simp
    | cons b t => simp at h
  | cons a t ihx =>
    cases ys with
    | nil => simp at h
    | cons b u =>
      simp only [List.length_cons, Nat.add_right_cancel_iff] at h
      simp only [List.cons_append]
      rw [lex_cons_iff, lex_cons_iff, ihx h]
      constructor
      · rintro (h1 | ⟨rfl, h2 | ⟨rfl, h3⟩⟩)
        · exact Or.inl (Or.inl h1)
        · exact Or.inl (Or.inr ⟨rfl, h2⟩)
        · exact Or.inr ⟨rfl, h3⟩
      · rintro ((h1 | ⟨rfl, h2⟩) | ⟨heq, h3⟩)
        · exact Or.inl h1
        · exact Or.inr ⟨rfl, Or.inl h2⟩
        · rw [List.cons.injEq] at heq
          exact Or.inr ⟨heq.1, Or.inr ⟨heq.2, h3⟩⟩

theorem natDigits_lt_iff : ∀ {a b : ℕ},
    (natDigits a).length = (natDigits b).length →
    (List.Lex (· < ·) (natDigits a) (natDigits b) ↔ a < b) := by
  intro a
  induction a using Nat.strong_induction_on with
  | _ a ih =>
    intro b hlen
    by_cases ha : a < 10 <;> by_cases hb : b < 10
    · rw [natDigits_lt10 ha, natDigits_lt10 hb]
      rw [List.Lex.singleton_iff]
      exact digitChar_lt_iff ha hb
    · rw [natDigits_lt10 ha, natDigits_length_ge10 hb] at hlen
      have := natDigits_ne_nil (b / 10)
      cases hnd : natDigits (b / 10) with
      | nil => exact absurd hnd this
      | cons c t => rw [hnd] at hlen; simp at hlen
    · rw [natDigits_length_ge10 ha, natDigits_lt10 hb] at hlen
      have := natDigits_ne_nil (a / 10)
      cases hnd : natDigits (a / 10) with
      | nil => exact absurd hnd this
      | cons c t => rw [hnd] at hlen; simp at hlen
    · rw [natDigits_ge10 ha, natDigits_ge10 hb]
      rw [natDigits_length_ge10 ha, natDigits_length_ge10 hb] at hlen
      have hlen' : (natDigits (a / 10)).length = (natDigits (b / 10)).length := by
        omega
      rw [lex_append_iff hlen']
      have h1 : List.Lex (· < ·) (natDigits (a / 10)) (natDigits (b / 10)) ↔
          a / 10 < b / 10 :=
        ih (a / 10) (Nat.div_lt_self (by omega) (by norm_num)) hlen'
      have h2 : natDigits (a / 10) = natDigits (b / 10) ↔ a / 10 = b / 10 :=
        ⟨natDigits_inj, fun hh => by rw [hh]⟩
      have h3 : List.Lex (· < ·) [Nat.digitChar (a % 10)] [Nat.digitChar (b % 10)] ↔
          a % 10 < b % 10 := by
        rw [List.Lex.singleton_iff]
        exact digitChar_lt_iff (Nat.mod_lt _ (by norm_num)) (Nat.mod_lt _ (by norm_num))
      rw [h1, h2, h3]
      omega

theorem natDigits_length_four {y : ℕ} (h1 : 1000 ≤ y) (h2 : y ≤ 9999) :
    (natDigits y).length = 4 := by
  have hy1 : ¬ y < 10 := by omega
  have hy2 : ¬ y / 10 < 10 := by omega
  have hy3 : ¬ y / 10 / 10 < 10 := by omega
  have hy4 : y / 10 / 10 / 10 < 10 := by omega
  rw [natDigits_length_ge10 hy1, natDigits_length_ge10 hy2,
    natDigits_length_ge10 hy3, natDigits_lt10 hy4]
  rfl

/-! ## Ordering of month keys -/

theorem string_lt_iff_lex {s t : String} :
    s < t ↔ List.Lex (· < ·) s.data t.data := by
  rw [String.lt_iff_toList_lt]
  exact Iff.rfl

theorem monthKey_data (s : TradeStat) :
    (monthKey s).data =
      natDigits s.year_val ++ '-' :: (padStart2 (toString s.month_val)).data := by
  show (toString s.year_val ++ "-" ++ padStart2 (toString s.month_val)).data = _
  rw [String.data_append, String.data_append, toString_nat_data,
    List.append_assoc]
  rfl

theorem monthPart_inj {m₁ m₂ : ℕ} (h1 : 1 ≤ m₁) (h2 : m₁ ≤ 12)
    (h3 : 1 ≤ m₂) (h4 : m₂ ≤ 12)
    (h : padStart2 (toString m₁) = padStart2 (toString m₂)) : m₁ = m₂ := by
  interval_cases m₁ <;> interval_cases m₂ <;> revert h <;> decide

theorem monthPart_lt_iff {m₁ m₂ : ℕ} (h1 : 1 ≤ m₁) (h2 : m₁ ≤ 12)
    (h3 : 1 ≤ m₂) (h4 : m₂ ≤ 12) :
    (List.Lex (· < ·) (padStart2 (toString m₁)).data
      (padStart2 (toString m₂)).data) ↔ m₁ < m₂ := by
  interval_cases m₁ <;> interval_cases m₂ <;> decide

theorem monthKey_eq_iff {s₁ s₂ : TradeStat}
    (hy1 : 1000 ≤ s₁.year_val) (hy2 : s₁.year_val ≤ 9999)
    (hm1 : 1 ≤ s₁.month_val) (hm2 : s₁.month_val ≤ 12)
    (hy3 : 1000 ≤ s₂.year_val) (hy4 : s₂.year_val ≤ 9999)
    (hm3 : 1 ≤ s₂.month_val) (hm4 : s₂.month_val ≤ 12) :
    monthKey s₁ = monthKey s₂ ↔
      (s₁.year_val = s₂.year_val ∧ s₁.month_val = s₂.month_val) := by
  constructor
  · intro h
    have hd := congrArg String.data h
    rw [monthKey_data, monthKey_data] at hd
    have hlen : (natDigits s₁.year_val).length = (natDigits s₂.year_val).length := by
      rw [natDigits_length_four hy1 hy2, natDigits_length_four hy3 hy4]
    obtain ⟨hY, hM⟩ := List.append_inj hd hlen
    rw [List.cons.injEq] at hM
    refine ⟨natDigits_inj hY, monthPart_inj hm1 hm2 hm3 hm4 ?_⟩
    apply String.ext
    exact hM.2
  · rintro ⟨h1, h2⟩
    show toString s₁.year_val ++ "-" ++ padStart2 (toString s₁.month_val) =
      toString s₂.year_val ++ "-" ++ padStart2 (toString s₂.month_val)
    rw [h1, h2]

theorem monthKey_lt_iff {s₁ s₂ : TradeStat}
    (hy1 : 1000 ≤ s₁.year_val) (hy2 : s₁.year_val ≤ 9999)
    (hm1 : 1 ≤ s₁.month_val) (hm2 : s₁.month_val ≤ 12)
    (hy3 : 1000 ≤ s₂.year_val) (hy4 : s₂.year_val ≤ 9999)
    (hm3 : 1 ≤ s₂.month_val) (hm4 : s₂.month_val ≤ 12) :
    monthKey s₁ < monthKey s₂ ↔
      (s₁.year_val < s₂.year_val ∨
        (s₁.year_val = s₂.year_val ∧ s₁.month_val < s₂.month_val)) := by
  rw [string_lt_iff_lex, monthKey_data, monthKey_data]
  have hlen : (natDigits s₁.year_val).length = (natDigits s₂.year_val).length := by
    rw [natDigits_length_four hy1 hy2, natDigits_length_four hy3 hy4]
  rw [lex_append_iff hlen, lex_cons_iff]
  have h1 : List.Lex (· < ·) (natDigits s₁.year_val) (natDigits s₂.year_val) ↔
      s₁.year_val < s₂.year_val := natDigits_lt_iff hlen
  have h2 : natDigits s₁.year_val = natDigits s₂.year_val ↔
      s₁.year_val = s₂.year_val := ⟨natDigits_inj, fun hh => by rw [hh]⟩
  rw [h1, h2, monthPart_lt_iff hm1 hm2 hm3 hm4]
  simp [lt_irrefl]

theorem monthKey_le_iff {s₁ s₂ : TradeStat}
    (hy1 : 1000 ≤ s₁.year_val) (hy2 : s₁.year_val ≤ 9999)
    (hm1 : 1 ≤ s₁.month_val) (hm2 : s₁.month_val ≤ 12)
    (hy3 : 1000 ≤ s₂.year_val) (hy4 : s₂.year_val ≤ 9999)
    (hm3 : 1 ≤ s₂.month_val) (hm4 : s₂.month_val ≤ 12) :
    monthKey s₁ ≤ monthKey s₂ ↔
      (s₁.year_val < s₂.year_val ∨
        (s₁.year_val = s₂.year_val ∧ s₁.month_val ≤ s₂.month_val)) := by
  rw [le_iff_lt_or_eq, monthKey_lt_iff hy1 hy2 hm1 hm2 hy3 hy4 hm3 hm4,
    monthKey_eq_iff hy1 hy2 hm1 hm2 hy3 hy4 hm3 hm4]
  omega

/-! ## Sorted structure of the aggregator output -/

/-- The list the aggregator sorts: map values, spread with
`isLatest: false`. -/
def preSort (stats : List TradeStat) : List ChartData :=
  ((buildMonthly stats).map Prod.snd).map (fun d => { d with isLatest := false })

theorem chartData_eq_preSort (stats : List TradeStat) (h : stats ≠ []) :
    chartData stats = setLastLatest ((preSort stats).insertionSort chartOrder) :=
  chartData_eq stats h

theorem preSort_months (stats : List TradeStat) :
    (preSort stats).map ChartData.month = (buildMonthly stats).map Prod.fst := by
  unfold preSort
  rw [List.map_map, List.map_map]
  apply List.map_congr_left
  intro kv hkv
  have h' : (kv.1, kv.2) ∈ buildMonthly stats := by simpa using hkv
  obtain ⟨_, _, hm, _, _⟩ := buildMonthly_entry h'
  simpa using hm

theorem preSort_false (stats : List TradeStat) :
    ∀ c ∈ preSort stats, c.isLatest = false := by
  intro c hc
  obtain ⟨w, hw, hwc⟩ := List.mem_map.mp hc
  rw [← hwc]

theorem setLastLatest_months : ∀ l : List ChartData,
    (setLastLatest l).map ChartData.month = l.map ChartData.month
  | [] => rfl
  | [c] => rfl
  | c :: c' :: t => by
    rw [show setLastLatest (c :: c' :: t) = c :: setLastLatest (c' :: t) from rfl]
    simp only [List.map_cons]
    rw [setLastLatest_months (c' :: t)]
    simp

theorem pairwise_month_lt_of_map {l₁ l₂ : List ChartData}
    (h : l₁.map ChartData.month = l₂.map ChartData.month)
    (hp : l₂.Pairwise (fun a b => a.month < b.month)) :
    l₁.Pairwise (fun a b => a.month < b.month) := by
  have h2 := List.pairwise_map.mpr hp
  rw [← h] at h2
  exact List.pairwise_map.mp h2

/-! ## Claim C6 -/

/-- The domain of the spec's data model: years printable as "YYYY"
(four digits) and months in 1-12 (`month: integer (1-12)` and the
zero-padded "YYYY-MM" period key of the spec). -/
def inYearMonthRange (stats : List TradeStat) : Prop :=
  ∀ s ∈ stats, 1000 ≤ s.year_val ∧ s.year_val ≤ 9999 ∧
    1 ≤ s.month_val ∧ s.month_val ≤ 12

instance (stats : List TradeStat) : Decidable (inYearMonthRange stats) :=
  List.decidableBAll _ stats

/-- Chronological order on observations: earlier year, or same year and
month no later. -/
def chronoLE (s₁ s₂ : TradeStat) : Prop :=
  s₁.year_val < s₂.year_val ∨
    (s₁.year_val = s₂.year_val ∧ s₁.month_val ≤ s₂.month_val)

/-- The conjunction claimed by C6 about the aggregator output. -/
def aggInvariants (stats : List TradeStat) : Prop :=
  (stats = [] → chartData stats = []) ∧
  (∀ s ∈ stats, ∃ c ∈ chartData stats, c.month = monthKey s) ∧
  (∀ c ∈ chartData stats, ∃ s ∈ stats, monthKey s = c.month) ∧
  ((chartData stats).map ChartData.month).Nodup ∧
  (chartData stats).Pairwise (fun a b => a.month < b.month) ∧
  (∀ s₁ ∈ stats, ∀ s₂ ∈ stats, monthKey s₁ = monthKey s₂ →
    s₁.year_val = s₂.year_val ∧ s₁.month_val = s₂.month_val) ∧
  (stats ≠ [] → ∃ t c, chartData stats = t ++ [c] ∧ c.isLatest = true ∧
    (∀ d ∈ t, d.isLatest = false) ∧
    ∃ s' ∈ stats, monthKey s' = c.month ∧ ∀ s ∈ stats, chronoLE s s')

/-- Claim C6: on inputs within the data model's ranges, the aggregator
emits exactly one aggregate per distinct (year, month) period of the
input (the key is injective on the domain), the output is sorted strictly
ascending by the period key (equivalently, chronologically), months are
pairwise distinct, the empty input gives the empty output, and - when
non-empty - precisely the final element carries `isLatest = true`, and its
period is the chronologically greatest period of the input. -/
theorem C6_aggregator_invariants (stats : List TradeStat)
    (hr : inYearMonthRange stats) : aggInvariants stats := by
  by_cases hs : stats = []
  · subst hs
    refine ⟨fun _ => rfl, by simp, ?_, by simp [chartData], by simp [chartData],
      by simp, fun h => absurd rfl h⟩
    intro c hc
    simp [chartData] at hc
  · have hout := chartData_eq_preSort stats hs
    have hperm : ((preSort stats).insertionSort chartOrder).Perm (preSort stats) :=
      List.perm_insertionSort _ _
    have hkeysnd := buildMonthly_keys_nodup stats
    have hmonths_sl : (((preSort stats).insertionSort chartOrder).map
        ChartData.month).Perm ((buildMonthly stats).map Prod.fst) := by
      rw [← preSort_months]
      exact hperm.map _
    have hnodup_sl : (((preSort stats).insertionSort chartOrder).map
        ChartData.month).Nodup := hmonths_sl.nodup_iff.mpr hkeysnd
    have hsorted : ((preSort stats).insertionSort chartOrder).Pairwise chartOrder :=
      List.sorted_insertionSort chartOrder (preSort stats)
    have hpairlt : ((preSort stats).insertionSort chartOrder).Pairwise
        (fun a b => a.month < b.month) := by
      have hne : ((preSort stats).insertionSort chartOrder).Pairwise
          (fun a b => a.month ≠ b.month) := List.pairwise_map.mp hnodup_sl
      exact (hsorted.and hne).imp (fun h => lt_of_le_of_ne h.1 h.2)
    have hmonths_out : (chartData stats).map ChartData.month =
        ((preSort stats).insertionSort chartOrder).map ChartData.month := by
      rw [hout]
      exact setLastLatest_months _
    have houtlt : (chartData stats).Pairwise (fun a b => a.month < b.month) :=
      pairwise_month_lt_of_map hmonths_out hpairlt
    have houtnodup : ((chartData stats).map ChartData.month).Nodup := by
      rw [hmonths_out]
      exact hnodup_sl
    have hkey_mem : ∀ s ∈ stats,
        monthKey s ∈ (chartData stats).map ChartData.month := by
      intro s hsm
      have hfmem : s ∈ stats.filter (fun x => monthKey x == monthKey s) :=
        List.mem_filter.mpr ⟨hsm, by simp⟩
      have hf : stats.filter (fun x => monthKey x == monthKey s) ≠ [] := by
        intro hnil
        rw [hnil] at hfmem
        exact absurd hfmem (List.not_mem_nil s)
      have hnone : mapGet (buildMonthly stats) (monthKey s) ≠ none := by
        rw [buildMonthly_get]
        simp [List.isEmpty_iff, hf]
      have hk : monthKey s ∈ (buildMonthly stats).map Prod.fst := by
        by_contra hk
        exact hnone (mapGet_eq_none_iff.mpr hk)
      rw [hmonths_out]
      exact hmonths_sl.mem_iff.mpr hk
    have hsource : ∀ c ∈ chartData stats, ∃ s ∈ stats, monthKey s = c.month := by
      intro c hc
      obtain ⟨k, v, hmem, hm, _, _, _⟩ := mem_chartData_source hc
      obtain ⟨_, hne, hvm, _, _⟩ := buildMonthly_entry hmem
      obtain ⟨s, hsmem, hsk⟩ := exists_source_of_filter_ne hne
      exact ⟨s, hsmem, by rw [hsk, hm, hvm]⟩
    refine ⟨fun h => absurd h hs, ?_, hsource, houtnodup, houtlt, ?_, ?_⟩
    · intro s hsm
      obtain ⟨c, hc, hcm⟩ := List.mem_map.mp (hkey_mem s hsm)
      exact ⟨c, hc, hcm⟩
    · intro s₁ h₁ s₂ h₂ hk
      obtain ⟨ha1, ha2, ha3, ha4⟩ := hr s₁ h₁
      obtain ⟨hb1, hb2, hb3, hb4⟩ := hr s₂ h₂
      exact (monthKey_eq_iff ha1 ha2 ha3 ha4 hb1 hb2 hb3 hb4).mp hk
    · intro _
      have hslne : (preSort stats).insertionSort chartOrder ≠ [] := by
        obtain ⟨s₀, hs₀⟩ := List.exists_mem_of_ne_nil stats hs
        have := hkey_mem s₀ hs₀
        rw [hmonths_out] at this
        intro hnil
        rw [hnil] at this
        exact absurd this (List.not_mem_nil _)
      obtain ⟨t, c, hdec, hset⟩ := setLastLatest_decomp _ hslne
      have houtdec : chartData stats = t ++ [{ c with isLatest := true }] := by
        rw [hout, hset]
      refine ⟨t, { c with isLatest := true }, houtdec, rfl, ?_, ?_⟩
      · intro d hd
        have hdsl : d ∈ (preSort stats).insertionSort chartOrder := by
          rw [hdec]
          exact List.mem_append_left _ hd
        exact preSort_false stats d (hperm.mem_iff.mp hdsl)
      · have hlast_mem : ({ c with isLatest := true } : ChartData) ∈
            chartData stats := by
          rw [houtdec]
          exact List.mem_append_right _ (by simp)
        obtain ⟨s', hs'm, hs'k⟩ := hsource _ hlast_mem
        refine ⟨s', hs'm, hs'k, ?_⟩
        intro s hsm
        have hin := hkey_mem s hsm
        rw [houtdec] at hin houtlt
        have hin' : monthKey s ∈ t.map ChartData.month ∨ monthKey s = c.month := by
          simpa using hin
        have hle : monthKey s ≤ monthKey s' := by
          rw [hs'k]
          rcases hin' with h | h
          · obtain ⟨d, hd, hdm⟩ := List.mem_map.mp h
            have hp := List.pairwise_append.mp houtlt
            have := hp.2.2 d hd { c with isLatest := true } (by simp)
            rw [hdm] at this
            exact le_of_lt this
          · exact le_of_eq h
        obtain ⟨ha1, ha2, ha3, ha4⟩ := hr s hsm
        obtain ⟨hb1, hb2, hb3, hb4⟩ := hr s' hs'm
        exact (monthKey_le_iff ha1 ha2 ha3 ha4 hb1 hb2 hb3 hb4).mp hle

/-- Witness: the aggregator invariants at a concrete two-month input,
given out of chronological order. -/
theorem C6_witness :
    inYearMonthRange [⟨2024, 2, .finite 5, .finite 1⟩,
        ⟨2023, 12, .finite 2, .finite 4⟩] ∧
      aggInvariants [⟨2024, 2, .finite 5, .finite 1⟩,
        ⟨2023, 12, .finite 2, .finite 4⟩] :=
  ⟨by decide, C6_aggregator_invariants _ (by decide)⟩

/-! ## Permutation invariance of the exact-arithmetic model

The following development shows that `chartData` over the exact-rational
`JSNum` model is invariant under permutation of its input.  This is a
property of the idealized arithmetic only: it rests on `jadd` being
associative and commutative, which IEEE-754 double addition - the
arithmetic the JavaScript program actually performs - is not (for
same-month values 1e20, 1, -1e20 the running double total is 0 or 1
depending on the order of addition).  The structural parts (grouping key
set, sorting, latest marker) are order-independent regardless; the
numeric totals are order-independent only up to rounding. -/

theorem foldl_updateEntry_perm {l₁ l₂ : List TradeStat} (h : l₁.Perm l₂)
    (c : ChartData) : l₁.foldl updateEntry c = l₂.foldl updateEntry c :=
  h.foldl_eq' (fun x _ y _ z => by rw [updateEntry_comm]) c

theorem buildMonthly_get_perm {l₁ l₂ : List TradeStat} (h : l₁.Perm l₂)
    (k : String) : mapGet (buildMonthly l₁) k = mapGet (buildMonthly l₂) k := by
  rw [buildMonthly_get, buildMonthly_get]
  have hp : (l₁.filter (fun s => monthKey s == k)).Perm
      (l₂.filter (fun s => monthKey s == k)) := h.filter _
  have h0 : (l₁.filter (fun s => monthKey s == k) = []) ↔
      (l₂.filter (fun s => monthKey s == k) = []) := by
    constructor <;> intro hh
    · rw [hh] at hp; exact hp.symm.eq_nil
    · rw [hh] at hp; exact hp.eq_nil
  have hemp : (l₁.filter (fun s => monthKey s == k)).isEmpty =
      (l₂.filter (fun s => monthKey s == k)).isEmpty := by
    by_cases hc : l₁.filter (fun s => monthKey s == k) = []
    · rw [hc, h0.mp hc]
    · have hc₂ : l₂.filter (fun s => monthKey s == k) ≠ [] :=
        fun hh => hc (h0.mpr hh)
      cases hl₁ : l₁.filter (fun s => monthKey s == k) with
      | nil => exact absurd hl₁ hc
      | cons a t =>
        cases hl₂ : l₂.filter (fun s => monthKey s == k) with
        | nil => exact absurd hl₂ hc₂
        | cons b u => rfl
  rw [hemp, foldl_updateEntry_perm hp]

/-- Removal of one entry from the association list (instance-free
counterpart of `List.erase`). -/
def removeEntry : List (String × ChartData) → (String × ChartData) →
    List (String × ChartData)
  | [], _ => []
  | p :: t, q => if p = q then t else p :: removeEntry t q

theorem perm_cons_removeEntry {m : List (String × ChartData)}
    {q : String × ChartData} (h : q ∈ m) : m.Perm (q :: removeEntry m q) := by
  induction m with
  | nil => simp at h
  | cons p t ih =>
    by_cases hp : p = q
    · subst hp
      rw [removeEntry, if_pos rfl]
    · rw [removeEntry, if_neg hp]
      have hq : q ∈ t := by
        rcases List.mem_cons.mp h with h' | h'
        · exact absurd h'.symm hp
        · exact h'
      exact ((ih hq).cons p).trans (List.Perm.swap q p (removeEntry t q))

theorem removeEntry_sublist (m : List (String × ChartData))
    (q : String × ChartData) : (removeEntry m q).Sublist m := by
  induction m with
  | nil => exact List.Sublist.refl []
  | cons p t ih =>
    by_cases hp : p = q
    · rw [removeEntry, if_pos hp]
      exact List.sublist_cons_self p t
    · rw [removeEntry, if_neg hp]
      exact ih.cons₂ p

theorem mapGet_removeEntry_ne {m : List (String × ChartData)} {k k' : String}
    {v : ChartData} (h : k' ≠ k) :
    mapGet (removeEntry m (k, v)) k' = mapGet m k' := by
  induction m with
  | nil => rfl
  | cons p t ih =>
    by_cases hp : p = (k, v)
    · subst hp
      rw [removeEntry, if_pos rfl]
      have hkk : ¬ ((k, v).1 = k') := fun hh => h (hh.symm)
      simp [mapGet, hkk]
    · rw [removeEntry, if_neg hp]
      obtain ⟨k₀, v₀⟩ := p
      by_cases h0 : k₀ = k'
      · simp [mapGet, h0]
      · simp [mapGet, h0, ih]

theorem key_not_mem_removeEntry {m : List (String × ChartData)} {k : String}
    {v : ChartData} (hn : (m.map Prod.fst).Nodup) (h : (k, v) ∈ m) :
    k ∉ (removeEntry m (k, v)).map Prod.fst := by
  induction m with
  | nil => simp at h
  | cons p t ih =>
    simp only [List.map_cons, List.nodup_cons] at hn
    by_cases hp : p = (k, v)
    · subst hp
      rw [removeEntry, if_pos rfl]
      exact hn.1
    · have hmem : (k, v) ∈ t := by
        rcases List.mem_cons.mp h with h' | h'
        · exact absurd h'.symm hp
        · exact h'
      rw [removeEntry, if_neg hp]
      simp only [List.map_cons, List.mem_cons]
      rintro (h1 | h1)
      · exact hn.1 (h1 ▸ List.mem_map.mpr ⟨(k, v), hmem, rfl⟩)
      · exact ih hn.2 hmem h1

theorem perm_of_mapGet_eq : ∀ {m₁ m₂ : List (String × ChartData)},
    (m₁.map Prod.fst).Nodup → (m₂.map Prod.fst).Nodup →
    (∀ k, mapGet m₁ k = mapGet m₂ k) → m₁.Perm m₂ := by
  intro m₁
  induction m₁ with
  | nil =>
    intro m₂ _ _ hget
    cases m₂ with
    | nil => exact List.Perm.refl []
    | cons p t =>
      obtain ⟨k₀, v₀⟩ := p
      have := hget k₀
      simp [mapGet] at this
  | cons p t ih =>
    intro m₂ hn₁ hn₂ hget
    obtain ⟨k, v⟩ := p
    have hn₁' : k ∉ t.map Prod.fst ∧ (t.map Prod.fst).Nodup := by
      rw [List.map_cons, List.nodup_cons] at hn₁
      exact hn₁
    have hk : mapGet m₂ k = some v := by
      rw [← hget k]
      simp [mapGet]
    have hmem : (k, v) ∈ m₂ := mapGet_mem hk
    have hperm2 : m₂.Perm ((k, v) :: removeEntry m₂ (k, v)) :=
      perm_cons_removeEntry hmem
    refine List.Perm.trans ?_ hperm2.symm
    apply List.Perm.cons
    apply ih hn₁'.2
    · exact hn₂.sublist ((removeEntry_sublist m₂ (k, v)).map Prod.fst)
    · intro k'
      by_cases hkk : k' = k
      · subst hkk
        have h1 : mapGet t k' = none := mapGet_eq_none_iff.mpr hn₁'.1
        have h2 : mapGet (removeEntry m₂ (k', v)) k' = none :=
          mapGet_eq_none_iff.mpr (key_not_mem_removeEntry hn₂ hmem)
        rw [h1, h2]
      · rw [mapGet_removeEntry_ne hkk, ← hget k']
        have hne : ¬ (k = k') := fun hh => hkk hh.symm
        simp [mapGet, hne]

/-- The sorted stage of the aggregator is strictly ascending in the month
key. -/
theorem preSort_sorted_lt (stats : List TradeStat) :
    ((preSort stats).insertionSort chartOrder).Pairwise
      (fun a b => a.month < b.month) := by
  have hperm := List.perm_insertionSort chartOrder (preSort stats)
  have hmonths_sl : (((preSort stats).insertionSort chartOrder).map
      ChartData.month).Perm ((buildMonthly stats).map Prod.fst) := by
    rw [← preSort_months]
    exact hperm.map _
  have hnodup_sl := hmonths_sl.nodup_iff.mpr (buildMonthly_keys_nodup stats)
  have hsorted := List.sorted_insertionSort chartOrder (preSort stats)
  have hne := List.pairwise_map.mp hnodup_sl
  exact (hsorted.and hne).imp (fun h => lt_of_le_of_ne h.1 h.2)

/-- In the exact-rational idealization of JavaScript arithmetic, the
aggregator depends only on the multiset of observations.  This does NOT
transfer to the program itself, whose double additions round and are
non-associative. -/
theorem chartData_perm_invariant_exact (l₁ l₂ : List TradeStat)
    (h : l₁.Perm l₂) : chartData l₁ = chartData l₂ := by
  by_cases h1 : l₁ = []
  · subst h1
    rw [h.symm.eq_nil]
  · have h2 : l₂ ≠ [] := fun hh => h1 (by rw [hh] at h; exact h.eq_nil)
    rw [chartData_eq_preSort l₁ h1, chartData_eq_preSort l₂ h2]
    have hbm : (buildMonthly l₁).Perm (buildMonthly l₂) :=
      perm_of_mapGet_eq (buildMonthly_keys_nodup l₁) (buildMonthly_keys_nodup l₂)
        (buildMonthly_get_perm h)
    have hpre : (preSort l₁).Perm (preSort l₂) := (hbm.map Prod.snd).map _
    have hsl : ((preSort l₁).insertionSort chartOrder).Perm
        ((preSort l₂).insertionSort chartOrder) :=
      (List.perm_insertionSort _ _).trans
        (hpre.trans (List.perm_insertionSort _ _).symm)
    have hs₁ := preSort_sorted_lt l₁
    have hs₂ := preSort_sorted_lt l₂
    haveI : IsAntisymm ChartData (fun a b => a.month < b.month ∨ a = b) := by
      refine ⟨fun a b hab hba => ?_⟩
      rcases hab with hab | hab
      · rcases hba with hba | hba
        · exact absurd hba (lt_asymm hab)
        · exact hba.symm
      · exact hab
    have hp₁ : ((preSort l₁).insertionSort chartOrder).Pairwise
        (fun a b => a.month < b.month ∨ a = b) :=
      hs₁.imp (fun hh => Or.inl hh)
    have hp₂ : ((preSort l₂).insertionSort chartOrder).Pairwise
        (fun a b => a.month < b.month ∨ a = b) :=
      hs₂.imp (fun hh => Or.inl hh)
    have heq : (preSort l₁).insertionSort chartOrder =
        (preSort l₂).insertionSort chartOrder :=
      List.eq_of_perm_of_sorted hsl hp₁ hp₂
    rw [heq]

end Trade
